import Mathlib

/-!
Verification development for the lab-report extraction pipeline
(`app/utils.py`, `app/lab_test_parser.py`, `app/text_extractor.py`,
`app/image_processor.py`, `app/main.py`).

Conventions of the embedding:
* Python strings are `List Char`; `chars` converts a Lean string literal.
* Python floats are the type `PyF` below: `-inf`, `+inf`, `nan`, or a
  finite value kept as an exact rational (`ℚ`).  `float(s)` is modelled by
  `pyParseFloat` for the decimal forms
  `[+-]digits[.digits][(e|E)[+-]digits]` and for the special names
  `inf`/`infinity`/`nan` (case-insensitive, optionally signed) that
  CPython's float() accepts; a decimal form whose exact value reaches the
  IEEE-double overflow boundary `2^1024 - 2^970` saturates to `inf`/`-inf`
  exactly as CPython's correctly-rounding float() does.  The remaining
  idealizations are the ones that keep finite values exact: no rounding of
  the mantissa to 53 bits (so no underflow to zero either), and underscore
  digit separators are treated as parse failures.
* The Python `re` operations used by the code are run on a small
  backtracking engine (`Rx`, `mtc`, `srchIn`, `fnd`) with Python's
  leftmost, greedy, first-solution semantics.
* Arithmetic on `ℚ` is done through `Rat.divInt`-based wrappers so that
  every definition evaluates inside the kernel.
-/

set_option maxRecDepth 100000
set_option exponentiation.threshold 1100

/-- String literal to Python-string (list of characters). -/
def chars (s : String) : List Char := s.data

/-- Exact rational addition (kernel-reducible wrapper). -/
def qAdd (a b : ℚ) : ℚ := Rat.divInt (a.num * (b.den : ℤ) + b.num * (a.den : ℤ)) ((a.den : ℤ) * (b.den : ℤ))

/-- Exact rational subtraction. -/
def qSub (a b : ℚ) : ℚ := Rat.divInt (a.num * (b.den : ℤ) - b.num * (a.den : ℤ)) ((a.den : ℤ) * (b.den : ℤ))

/-- Exact rational multiplication. -/
def qMul (a b : ℚ) : ℚ := Rat.divInt (a.num * b.num) ((a.den : ℤ) * (b.den : ℤ))

/-- Exact rational division (`a / b`; division by zero gives 0, as in `Rat.divInt _ 0`). -/
def qDiv (a b : ℚ) : ℚ := Rat.divInt (a.num * (b.den : ℤ)) ((a.den : ℤ) * b.num)

/-- Absolute value on ℚ. -/
def qAbs (a : ℚ) : ℚ := if a < 0 then Rat.divInt (-a.num) (a.den : ℤ) else a

/-- The whitespace class of Python's `str.strip` / regex `\s` (ASCII inputs). -/
def isPySpace (c : Char) : Bool :=
  c = ' ' || c = '\t' || c = '\n' || c = '\x0d' || c = '\x0b' || c = '\x0c'

/-- Python `str.lower()` on the ASCII texts this program handles. -/
def lowerChars (l : List Char) : List Char := l.map Char.toLower

/-- Python `s.split(sep)` for a one-character separator (keeps empty pieces). -/
def pySplit (sep : Char) : List Char → List (List Char)
  | [] => [[]]
  | c :: rest =>
    if c = sep then [] :: pySplit sep rest
    else
      match pySplit sep rest with
      | [] => [[c]]
      | p :: ps => (c :: p) :: ps

/-- Python `s.strip()` (whitespace on both ends). -/
def pyStrip (l : List Char) : List Char :=
  ((l.dropWhile isPySpace).reverse.dropWhile isPySpace).reverse

/-- Python `s.count(c)` for a single character. -/
def countCh (c : Char) (l : List Char) : Nat := l.count c

/-- Python `c in s` for a single character. -/
def hasCh (c : Char) (l : List Char) : Bool := l.any (fun d => decide (d = c))

/-- Python `"\n".join(_)`. -/
def joinNL : List (List Char) → List Char
  | [] => []
  | [l] => l
  | l :: rest => l ++ '\n' :: joinNL rest

/-! ### A small regex engine with Python `re` semantics

Only the constructs appearing in the source's patterns are supported:
single-character classes, literals, greedy `*` over a class, concatenation,
alternation (left preferred), greedy `?`, capturing groups, lookahead and
`$`.  `mtc` lists all ways a pattern can match a text head-on, in exactly
Python's backtracking priority order; a search takes the first way.
-/

/-- Regex abstract syntax. -/
inductive Rx where
  | eps : Rx
  | cls : (Char → Bool) → Rx
  | lit : List Char → Rx
  | starCls : (Char → Bool) → Rx
  | seq : Rx → Rx → Rx
  | alt : Rx → Rx → Rx
  | opt : Rx → Rx
  | grp : Nat → Rx → Rx
  | look : Rx → Rx
  | eol : Rx

/-- Captured groups of one way of matching. -/
abbrev Caps := List (Nat × List Char)

/-- Length of the leading run of characters satisfying `p`. -/
def leadRun (p : Char → Bool) : List Char → Nat
  | [] => 0
  | c :: rest => if p c then leadRun p rest + 1 else 0

/-- Match a literal at the head of the text. -/
def stripLit : List Char → List Char → Option (List Char)
  | [], cs => some cs
  | _ :: _, [] => none
  | p :: ps, c :: cs => if c = p then stripLit ps cs else none

/-- All ways `r` matches a head portion of `cs`, in Python's backtracking
priority order; each way is the remaining text and the captures made. -/
def mtc : Rx → List Char → Caps → List (List Char × Caps)
  | .eps, cs, k => [(cs, k)]
  | .cls p, cs, k =>
    match cs with
    | [] => []
    | c :: rest => if p c then [(rest, k)] else []
  | .lit l, cs, k =>
    match stripLit l cs with
    | some rest => [(rest, k)]
    | none => []
  | .starCls p, cs, k =>
    (List.range (leadRun p cs + 1)).map (fun i => (cs.drop (leadRun p cs - i), k))
  | .seq a b, cs, k => (mtc a cs k).flatMap (fun w => mtc b w.1 w.2)
  | .alt a b, cs, k => mtc a cs k ++ mtc b cs k
  | .opt a, cs, k => mtc a cs k ++ [(cs, k)]
  | .grp i a, cs, k =>
    (mtc a cs k).map (fun w => (w.1, (i, cs.take (cs.length - w.1.length)) :: w.2))
  | .look a, cs, k =>
    match (mtc a cs k).head? with
    | some w => [(cs, w.2)]
    | none => []
  | .eol, cs, k => if cs = [] || cs = ['\n'] then [(cs, k)] else []

/-- The `re.search` helper: first position (from `pos`) where `r` matches;
returns `(start, end, captures)` with indices relative to the original
start of the scan. -/
def srchA (r : Rx) : List Char → Nat → Option (Nat × Nat × Caps)
  | [], pos =>
    match (mtc r [] []).head? with
    | some w => some (pos, pos + (([] : List Char).length - w.1.length), w.2)
    | none => none
  | c :: t, pos =>
    match (mtc r (c :: t) []).head? with
    | some w => some (pos, pos + ((c :: t).length - w.1.length), w.2)
    | none => srchA r t (pos + 1)

/-- The `re.search(r, cs)`: leftmost match as `(start, end, captures)`. -/
def srchIn (r : Rx) (cs : List Char) : Option (Nat × Nat × Caps) := srchA r cs 0

/-- Retrieve group `i` of a match (`none` models Python's `None`). -/
def grpGet (k : Caps) (i : Nat) : Option (List Char) :=
  (k.find? (fun p => p.1 = i)).map (fun p => p.2)

/-- One step of `re.finditer`: fuel-bounded scan producing all
non-overlapping matches, left to right. -/
def fndA (r : Rx) : Nat → List Char → Nat → List (Nat × Nat × Caps)
  | 0, _, _ => []
  | fuel + 1, cs, base =>
    match srchIn r cs with
    | none => []
    | some (s, e, k) =>
      let adv := if e = s then s + 1 else e
      (base + s, base + e, k) :: fndA r fuel (cs.drop adv) (base + adv)

/-- The `re.finditer(r, cs)`. -/
def fnd (r : Rx) (cs : List Char) : List (Nat × Nat × Caps) :=
  fndA r (cs.length + 1) cs 0

/-- The `p+` as `p p*`. -/
def plusCls (p : Char → Bool) : Rx := .seq (.cls p) (.starCls p)

/-- Concatenation of a pattern list. -/
def rxSeq (l : List Rx) : Rx := l.foldr Rx.seq .eps

/-- Ordered alternation of a pattern list (empty list never matches). -/
def rxAlt (l : List Rx) : Rx := l.foldr Rx.alt (.cls (fun _ => false))

/-- The `re.sub(r, "", s)`-style removal of every match of `r` (fuel-bounded,
our patterns never match the empty string). -/
def rxDelA (r : Rx) : Nat → List Char → List Char
  | 0, cs => cs
  | fuel + 1, cs =>
    match srchIn r cs with
    | none => cs
    | some (s, e, _) =>
      let adv := if e = s then s + 1 else e
      cs.take s ++ rxDelA r fuel (cs.drop adv)

/-- The `re.sub(r, "", s)` with empty replacement. -/
def rxDel (r : Rx) (cs : List Char) : List Char := rxDelA r (cs.length + 1) cs

/-! ### `app/utils.py` -/

/-- Character equals `x`. -/
def isCh (x : Char) : Char → Bool := fun c => decide (c = x)

/-- Character differs from `x` (the class `[^x]`). -/
def notCh (x : Char) : Char → Bool := fun c => ! decide (c = x)

/-- Decimal digit. -/
def digitC (c : Char) : Bool := c.isDigit

/-- A Python float as this program can produce one: `float("-inf")`,
a finite (exact rational) value, `float("inf")`, or `float("nan")`. -/
inductive PyF where
  | ninf : PyF
  | fin : ℚ → PyF
  | inf : PyF
  | nan : PyF
deriving DecidableEq

/-- The `<` on the modelled floats (`nan` compares below and above nothing,
as IEEE comparisons are false on `nan`). -/
def pfLt : PyF → PyF → Bool
  | .nan, _ => false
  | _, .nan => false
  | .ninf, .ninf => false
  | .ninf, _ => true
  | _, .ninf => false
  | .fin a, .fin b => decide (a < b)
  | .fin _, .inf => true
  | .inf, _ => false

/-- Is the modelled float `-inf`? -/
def pfIsNinf : PyF → Bool
  | .ninf => true
  | _ => false

/-- Is the modelled float `+inf`? -/
def pfIsInf : PyF → Bool
  | .inf => true
  | _ => false

/-- Numeric value of a digit list. -/
def digitsToNat (l : List Char) : Nat :=
  l.foldl (fun a c => 10 * a + (c.toNat - 48)) 0

/-- Powers of ten (kernel-friendly). -/
def pow10Z (n : Nat) : Int := (((10 : ℕ) ^ n : ℕ) : ℤ)

/-- The smallest magnitude a decimal form may have and still round to an
infinity under CPython's correctly-rounding `float()`: the IEEE-double
overflow boundary `2^1024 - 2^970`, the midpoint between the largest finite
double `2^1024 - 2^971` and `2^1024` (the midpoint itself rounds up under
ties-to-even), so `float("1e999") == float("inf")`. -/
def floatHuge : ℚ := mkRat (((2 : ℕ) ^ 1024 - (2 : ℕ) ^ 970 : ℕ) : ℤ) 1

/-- Python `float(s)`: the decimal forms `[+-]digits[.digits][(e|E)[+-]digits]`
(saturating to an infinity at the IEEE overflow boundary `floatHuge`, as
CPython does) and the special names `inf`/`infinity`/`nan` (case-insensitive,
optionally signed), with leading/trailing whitespace stripped as `float`
does; every other string is a parse failure. -/
def pyParseFloat (l0 : List Char) : Option PyF :=
  let l := pyStrip l0
  let sgn : Int := match l.head? with
    | some '-' => -1
    | _ => 1
  let l1 := match l with
    | '+' :: t => t
    | '-' :: t => t
    | t => t
  if lowerChars l1 = chars ("inf") || lowerChars l1 = chars ("infinity") then
    some (if sgn = -1 then .ninf else .inf)
  else if lowerChars l1 = chars ("nan") then some .nan
  else
    let ip := l1.takeWhile digitC
    let r1 := l1.dropWhile digitC
    let fp := match r1 with
      | '.' :: t => t.takeWhile digitC
      | _ => []
    let r2 := match r1 with
      | '.' :: t => t.dropWhile digitC
      | t => t
    if ip = [] && fp = [] then none
    else
      let ex : Option Int := match r2 with
        | [] => some 0
        | e :: t =>
          if e = 'e' || e = 'E' then
            let esgn : Int := match t.head? with
              | some '-' => -1
              | _ => 1
            let t1 := match t with
              | '+' :: u => u
              | '-' :: u => u
              | u => u
            let ed := t1.takeWhile digitC
            if ed.isEmpty || !(t1.dropWhile digitC).isEmpty then none
            else some (esgn * (digitsToNat ed : Int))
          else none
      match ex with
      | none => none
      | some e0 =>
        let m : Int := (digitsToNat (ip ++ fp) : Int)
        let e := e0 - (fp.length : Int)
        let mag : ℚ := if 0 ≤ e then Rat.divInt (m * pow10Z e.toNat) 1
                       else Rat.divInt m (pow10Z (-e).toNat)
        if floatHuge ≤ mag then some (if sgn = -1 then .ninf else .inf)
        else some (.fin (if 0 ≤ e then Rat.divInt (sgn * m * pow10Z e.toNat) 1
                         else Rat.divInt (sgn * m) (pow10Z (-e).toNat)))

/-- The pattern `\d+\.?\d*` of `parse_reference_range`. -/
def numRx : Rx := rxSeq [plusCls digitC, .opt (.cls (isCh '.')), .starCls digitC]

/-- The pattern `<\s*=?\s*(\d+\.?\d*)`. -/
def ltRx : Rx :=
  rxSeq [.lit (chars ("<")), .starCls isPySpace, .opt (.lit (chars ("="))),
         .starCls isPySpace, .grp 1 numRx]

/-- The pattern `>\s*=?\s*(\d+\.?\d*)`. -/
def gtRx : Rx :=
  rxSeq [.lit (chars (">")), .starCls isPySpace, .opt (.lit (chars ("="))),
         .starCls isPySpace, .grp 1 numRx]

/-- Case 1 of `parse_reference_range`: the `"X-Y"` format (lines 19-28 of
`utils.py`); `none` is the fall-through of a failed attempt. -/
def prrCase1 (rs : List Char) : Option (PyF × PyF) :=
  if hasCh '-' rs && !(hasCh '<' rs || hasCh '>' rs) then
    match pySplit '-' rs with
    | [p0, p1] =>
      match pyParseFloat (pyStrip p0), pyParseFloat (pyStrip p1) with
      | some a, some b => some (a, b)
      | _, _ => none
    | _ => none
  else none

/-- Case 2 of `parse_reference_range`: `"< X"` / `"<= X"` (lines 31-38). -/
def prrCase2 (rs : List Char) : Option (PyF × PyF) :=
  if hasCh '<' rs then
    match srchIn ltRx rs with
    | some m =>
      match (grpGet m.2.2 1).bind pyParseFloat with
      | some v => some (.ninf, v)
      | none => none
    | none => none
  else none

/-- Case 3 of `parse_reference_range`: `"> X"` / `">= X"` (lines 41-48). -/
def prrCase3 (rs : List Char) : Option (PyF × PyF) :=
  if hasCh '>' rs then
    match srchIn gtRx rs with
    | some m =>
      match (grpGet m.2.2 1).bind pyParseFloat with
      | some v => some (v, .inf)
      | none => none
    | none => none
  else none

/-- The `utils.parse_reference_range`: `"A-B"`, `"<X"`/`"<=X"`, `">X"`/`">=X"`
tried in order, with the degenerate default `(0.0, 0.0)` when nothing
parses. -/
def parse_reference_range (rs0 : List Char) : PyF × PyF :=
  let rs := pyStrip rs0
  match prrCase1 rs with
  | some r => r
  | none =>
    match prrCase2 rs with
    | some r => r
    | none =>
      match prrCase3 rs with
      | some r => r
      | none => (.fin 0, .fin 0)

/-- The `utils.is_value_out_of_range` for a (float) value: the code tests
`min_val != float("-inf") and value < min_val`, then
`max_val != float("inf") and value > max_val`. -/
def is_value_out_of_range (v : PyF) (rng : List Char) : Bool :=
  let p := parse_reference_range rng
  if !(pfIsNinf p.1) && pfLt v p.1 then true
  else if !(pfIsInf p.2) && pfLt p.2 v then true
  else false

/-- Python `name.split()` (split on whitespace runs, dropping empties),
fuel-bounded. -/
def wsSplitA : Nat → List Char → List (List Char)
  | 0, _ => []
  | f + 1, l =>
    match l.dropWhile isPySpace with
    | [] => []
    | l' => l'.takeWhile (fun c => !(isPySpace c)) ::
            wsSplitA f (l'.dropWhile (fun c => !(isPySpace c)))

/-- The `" ".join(_)`. -/
def joinSp : List (List Char) → List Char
  | [] => []
  | [l] => l
  | l :: rest => l ++ ' ' :: joinSp rest

/-- The pattern `\s*\([^)]*\)\s*$` of `clean_test_name`. -/
def parenTailRx : Rx :=
  rxSeq [.starCls isPySpace, .lit (chars ("(")), .starCls (notCh ')'),
         .lit (chars (")")), .starCls isPySpace, .eol]

/-- The pattern `\s*-\s*Result\s*$` of `clean_test_name`. -/
def resultTailRx : Rx :=
  rxSeq [.starCls isPySpace, .lit (chars ("-")), .starCls isPySpace,
         .lit (chars ("Result")), .starCls isPySpace, .eol]

/-- The `utils.clean_test_name`. -/
def clean_test_name (nm : List Char) : List Char :=
  let n1 := joinSp (wsSplitA (nm.length + 1) nm)
  let n2 := rxDel parenTailRx n1
  let n3 := rxDel resultTailRx n2
  pyStrip n3

/-- A test value: a parsed float or the original string. -/
inductive TestValue where
  | num : PyF → TestValue
  | str : List Char → TestValue
deriving DecidableEq

/-- The output record of `utils.format_lab_test`. -/
structure LabTest where
  test_name : List Char
  test_value : TestValue
  bio_reference_range : List Char
  test_unit : List Char
  lab_test_out_of_range : Bool
deriving DecidableEq

/-- The unit class `[a-zA-Z/%]` of `format_lab_test`. -/
def unitCls (c : Char) : Bool := c.isAlpha || c = '/' || c = '%'

/-- The `utils.format_lab_test`. -/
def format_lab_test (nm vs rng : List Char) : LabTest :=
  let test_unit := match srchIn (plusCls unitCls) rng with
    | some (s, e, _) => (rng.drop s).take (e - s)
    | none => []
  match pyParseFloat vs with
  | some q =>
    { test_name := clean_test_name nm, test_value := .num q,
      bio_reference_range := rng, test_unit := test_unit,
      lab_test_out_of_range := is_value_out_of_range q rng }
  | none =>
    { test_name := clean_test_name nm, test_value := .str vs,
      bio_reference_range := rng, test_unit := test_unit,
      lab_test_out_of_range := false }

/-! ### `app/lab_test_parser.py` -/

/-- The class `[A-Za-z0-9\s\-\+\/]` of the free-text patterns. -/
def nameCls (c : Char) : Bool :=
  c.isAlpha || c.isDigit || isPySpace c || c = '-' || c = '+' || c = '/'

/-- The value class `[0-9\.]`. -/
def valCls (c : Char) : Bool := c.isDigit || c = '.'

/-- The range class `[0-9\.<>\-\s\.]`. -/
def rngCls (c : Char) : Bool :=
  c.isDigit || c = '.' || c = '<' || c = '>' || c = '-' || isPySpace c

/-- Pattern 1: `([A-Za-z0-9\s\-\+\/]+)\s*:\s*([0-9\.]+)\s*(?:\(([0-9\.<>\-\s\.]+)\))?`. -/
def pat1 : Rx :=
  rxSeq [.grp 1 (plusCls nameCls), .starCls isPySpace, .lit (chars (":")),
         .starCls isPySpace, .grp 2 (plusCls valCls), .starCls isPySpace,
         .opt (rxSeq [.lit (chars ("(")), .grp 3 (plusCls rngCls), .lit (chars (")"))])]

/-- Pattern 2: `([A-Za-z0-9\s\-\+\/]+)\s+([0-9\.]+)\s+([0-9\.<>\-\s\.]+)`. -/
def pat2 : Rx :=
  rxSeq [.grp 1 (plusCls nameCls), plusCls isPySpace, .grp 2 (plusCls valCls),
         plusCls isPySpace, .grp 3 (plusCls rngCls)]

/-- Pattern 3: `([A-Za-z0-9\s\-\+\/]+)\.{2,}\s*([0-9\.]+)\.{2,}\s*([0-9\.<>\-\s\.]+)`. -/
def pat3 : Rx :=
  rxSeq [.grp 1 (plusCls nameCls), .cls (isCh '.'), .cls (isCh '.'), .starCls (isCh '.'),
         .starCls isPySpace, .grp 2 (plusCls valCls), .cls (isCh '.'), .cls (isCh '.'),
         .starCls (isCh '.'), .starCls isPySpace, .grp 3 (plusCls rngCls)]

/-- Pattern 4: `([A-Za-z0-9\s\-\+\/]+)\s+Result\s*:\s*([0-9\.]+)\s+([0-9\.<>\-\s\.]+)`. -/
def pat4 : Rx :=
  rxSeq [.grp 1 (plusCls nameCls), plusCls isPySpace, .lit (chars ("Result")),
         .starCls isPySpace, .lit (chars (":")), .starCls isPySpace,
         .grp 2 (plusCls valCls), plusCls isPySpace, .grp 3 (plusCls rngCls)]

/-- The `self.patterns`, in order. -/
def patterns : List Rx := [pat1, pat2, pat3, pat4]

/-- The `self.table_header_patterns`. -/
def table_header_rx : List Rx :=
  [rxSeq [.lit (chars ("test")), .starCls isPySpace, .lit (chars ("name"))],
   .lit (chars ("parameter")),
   .lit (chars ("investigation")),
   rxSeq [.lit (chars ("lab")), .starCls isPySpace, .lit (chars ("test"))]]

/-- The `self.value_header_patterns`. -/
def value_header_rx : List Rx :=
  [.lit (chars ("result")), .lit (chars ("value")), .lit (chars ("reading"))]

/-- The `self.range_header_patterns`. -/
def range_header_rx : List Rx :=
  [rxSeq [.lit (chars ("reference")), .starCls isPySpace, .lit (chars ("range"))],
   rxSeq [.lit (chars ("normal")), .starCls isPySpace, .lit (chars ("range"))],
   rxSeq [.lit (chars ("bio")), .starCls isPySpace, .lit (chars ("reference"))],
   rxSeq [.lit (chars ("expected")), .starCls isPySpace, .lit (chars ("range"))]]

/-- The `any(re.search(p, l) for p in pats)`. -/
def hasAnyRx (pats : List Rx) (l : List Char) : Bool :=
  pats.any (fun p => (srchIn p l).isSome)

/-- The `LabTestParser._is_tabular_format`. -/
def is_tabular_format (text : List Char) : Bool :=
  let lines := pySplit '\n' text
  if lines.any (fun line =>
      let ll := lowerChars line
      hasAnyRx table_header_rx ll && hasAnyRx value_header_rx ll) then true
  else
    -- count > len(lines) * 1.5, exactly, for each of '|', '\t', ','
    let n := lines.length
    if 2 * (lines.map (countCh '|')).sum > 3 * n
       || 2 * (lines.map (countCh '\t')).sum > 3 * n
       || 2 * (lines.map (countCh ',')).sum > 3 * n then true
    else false

/-- One `re.finditer` match to a record (`parse_text`'s loop body; every
pattern declares three groups, so the `len(match.groups()) >= 2` guard of
the source is always true). -/
def matchToTest (m : Nat × Nat × Caps) : LabTest :=
  let caps := m.2.2
  let test_name := pyStrip ((grpGet caps 1).getD [])
  let value_str := pyStrip ((grpGet caps 2).getD [])
  let reference_range := match grpGet caps 3 with
    | some g => if g.isEmpty then chars ("N/A") else pyStrip g
    | none => chars ("N/A")
  format_lab_test test_name value_str reference_range

/-- The union of the records of all four free-text patterns, in pattern
order then match order (`parse_text` lines 57-72). -/
def patternTests (text : List Char) : List LabTest :=
  patterns.foldl (fun acc p => acc ++ (fnd p text).map matchToTest) []

/-- First vocabulary alternation of `_parse_aggressive`. -/
def aggNameRx1 : Rx :=
  .grp 1 (rxAlt (["Hemoglobin", "WBC", "RBC", "Platelets", "Glucose", "Cholesterol",
                  "HDL", "LDL", "Triglycerides", "Sodium", "Potassium", "Chloride",
                  "Calcium", "Magnesium", "Creatinine", "BUN", "ALT", "AST",
                  "Bilirubin", "Albumin", "ALP", "HbA1c"].map (fun s => Rx.lit (chars s))))

/-- Second vocabulary alternation of `_parse_aggressive`. -/
def aggNameRx2 : Rx :=
  .grp 1 (rxAlt (["TSH", "T3", "T4", "Vitamin D", "B12", "Folate", "Iron",
                  "Ferritin"].map (fun s => Rx.lit (chars s))))

/-- The `([A-Za-z][A-Za-z\s\-]+)(?=\s*[:=])`. -/
def aggNameRx3 : Rx :=
  rxSeq [.grp 1 (rxSeq [.cls Char.isAlpha,
                        plusCls (fun c => c.isAlpha || isPySpace c || c = '-')]),
         .look (rxSeq [.starCls isPySpace, .cls (fun c => c = ':' || c = '=')])]

/-- The `(\d+\.?\d*)` (values in `_parse_aggressive`). -/
def aggValRx : Rx := .grp 1 numRx

/-- The `(\d+\.?\d*\s*[-–]\s*\d+\.?\d*)` (ranges in `_parse_aggressive`). -/
def aggRngRx : Rx :=
  .grp 1 (rxSeq [numRx, .starCls isPySpace, .cls (fun c => c = '-' || c = '–'),
                 .starCls isPySpace, numRx])

/-- The name scan of `_parse_aggressive`: first of the three patterns that
matches; gives the stripped group 1 and the match end. -/
def aggFindName (line : List Char) : Option (List Char × Nat) :=
  match srchIn aggNameRx1 line with
  | some m => some (pyStrip ((grpGet m.2.2 1).getD []), m.2.1)
  | none =>
    match srchIn aggNameRx2 line with
    | some m => some (pyStrip ((grpGet m.2.2 1).getD []), m.2.1)
    | none =>
      match srchIn aggNameRx3 line with
      | some m => some (pyStrip ((grpGet m.2.2 1).getD []), m.2.1)
      | none => none

/-- The `_parse_aggressive`, body for one line (`next?` is the following line). -/
def aggLine (line : List Char) (next? : Option (List Char)) : List LabTest :=
  if (pyStrip line).isEmpty then []
  else
    match aggFindName line with
    | none => []
    | some (nm, endIdx) =>
      if nm.isEmpty then []
      else
        let nextOk := match next? with
          | some nl => !(pyStrip nl).isEmpty
          | none => false
        let value_str : Option (List Char) :=
          match srchIn aggValRx (line.drop endIdx) with
          | some m => some (pyStrip ((grpGet m.2.2 1).getD []))
          | none =>
            if nextOk then
              match srchIn aggValRx (next?.getD []) with
              | some m => some (pyStrip ((grpGet m.2.2 1).getD []))
              | none => none
            else none
        match value_str with
        | none => []
        | some vs =>
          let rng :=
            match srchIn aggRngRx line with
            | some m => pyStrip ((grpGet m.2.2 1).getD [])
            | none =>
              if nextOk then
                match srchIn aggRngRx (next?.getD []) with
                | some m => pyStrip ((grpGet m.2.2 1).getD [])
                | none => chars ("N/A")
              else chars ("N/A")
          [format_lab_test nm vs rng]

/-- The `_parse_aggressive`, looping over the lines. -/
def aggLoop : List (List Char) → List LabTest
  | [] => []
  | line :: rest => aggLine line rest.head? ++ aggLoop rest

/-- The `LabTestParser._parse_aggressive`. -/
def parse_aggressive (text : List Char) : List LabTest :=
  aggLoop (pySplit '\n' text)

/-- The `header_columns` dict of `_parse_tabular_format`. -/
structure HCols where
  tn : Option Nat
  vl : Option Nat
  rg : Option Nat
deriving DecidableEq

/-- The column-role scan of `_parse_tabular_format` (if/elif chain over the
header cells; later matches overwrite earlier ones). -/
def assignCols (cols : List (List Char)) (hc : HCols) : HCols :=
  cols.enum.foldl (fun h jc =>
    if hasAnyRx table_header_rx jc.2 then { h with tn := some jc.1 }
    else if hasAnyRx value_header_rx jc.2 then { h with vl := some jc.1 }
    else if hasAnyRx range_header_rx jc.2 then { h with rg := some jc.1 }
    else h) hc

/-- The `max(header_columns.values())`; `tn` and `vl` are always present when
this is evaluated, so the defaults never matter. -/
def hcMax (hc : HCols) : Nat :=
  max (hc.tn.getD 0) (max (hc.vl.getD 0) (hc.rg.getD 0))

/-- The data-row loop of `_parse_tabular_format` (lines 167-191). -/
def tabDataRows (delim : Char) (hc : HCols) (dls : List (List Char)) : List LabTest :=
  dls.foldl (fun acc dl0 =>
    let dl := pyStrip dl0
    if dl.isEmpty then acc
    else
      let dcols := (pySplit delim dl).map pyStrip
      if dcols.length ≤ hcMax hc then acc
      else
        let test_name := dcols.getD (hc.tn.getD 0) []
        let value_str := dcols.getD (hc.vl.getD 0) []
        let rng := match hc.rg with
          | some r => if r < dcols.length then dcols.getD r [] else chars ("N/A")
          | none => chars ("N/A")
        if !test_name.isEmpty && !value_str.isEmpty then
          acc ++ [format_lab_test test_name value_str rng]
        else acc) []

/-- The delimiter loop of `_parse_tabular_format`; `Except.error` is the
early `return lab_tests`.  When the loop falls through, `lab_tests` is
still empty (a non-empty result always returns). -/
def tabDelimLoop : List Char → List Char → List (List Char) → HCols →
    Except (List LabTest) HCols
  | [], _, _, hc => .ok hc
  | d :: ds, line, dls, hc =>
    if hasCh d line then
      let cols := (pySplit d line).map (fun c => lowerChars (pyStrip c))
      let hc' := assignCols cols hc
      if hc'.tn.isSome && hc'.vl.isSome then
        let tests := tabDataRows d hc' dls
        if !tests.isEmpty then .error tests
        else tabDelimLoop ds line dls hc'
      else tabDelimLoop ds line dls hc'
    else tabDelimLoop ds line dls hc

/-- The header-line loop of `_parse_tabular_format`; the Bool result says
whether some header line was found (`header_line_idx != -1`).  Note that
`header_columns` persists across header lines and delimiters, as in the
source. -/
def tabPhase1 : List (List Char) → HCols → Bool → Except (List LabTest) (HCols × Bool)
  | [], hc, found => .ok (hc, found)
  | line :: rest, hc, found =>
    let ll := lowerChars line
    if hasAnyRx table_header_rx ll && hasAnyRx value_header_rx ll then
      let delims := ['|', '\t'] ++
        (if hasCh ',' line && !(decide (countCh ',' line > 5)) then [','] else [])
      match tabDelimLoop delims line rest hc with
      | .error tests => .error tests
      | .ok hc' => tabPhase1 rest hc' true
    else tabPhase1 rest hc found

/-- The positional fallback of `_parse_tabular_format` (lines 198-227),
used only when no header line was identified. -/
def tabPositional (lines : List (List Char)) : List LabTest :=
  lines.foldl (fun acc line0 =>
    let line := pyStrip line0
    if line.isEmpty then acc
    else
      let columns := pySplit '\t' line
      if columns.length ≥ 2 then
        if hasAnyRx table_header_rx (lowerChars (columns.getD 0 [])) then acc
        else
          let test_name := pyStrip (columns.getD 0 [])
          let value_str := if 1 < columns.length then pyStrip (columns.getD 1 []) else []
          let rng := if 2 < columns.length then pyStrip (columns.getD 2 []) else chars ("N/A")
          if !test_name.isEmpty && !value_str.isEmpty then
            acc ++ [format_lab_test test_name value_str rng]
          else acc
      else acc) []

/-- The `LabTestParser._parse_tabular_format`. -/
def parse_tabular_format (text : List Char) : List LabTest :=
  let lines := pySplit '\n' text
  match tabPhase1 lines { tn := none, vl := none, rg := none } false with
  | .error tests => tests
  | .ok (_, found) => if found then [] else tabPositional lines

/-- The `LabTestParser.parse_text`. -/
def parse_text (text : List Char) : List LabTest :=
  if is_tabular_format text then parse_tabular_format text
  else
    let lab_tests := patternTests text
    if !lab_tests.isEmpty then lab_tests
    else parse_aggressive text

/-- The header scan of `parse_table_data` over the first row:
`(test_name_col, value_col, range_col)`, each `-1` when absent. -/
def tdScanHdr (row : List (List Char)) : Int × Int × Int :=
  row.enum.foldl (fun t jc =>
    let cell := lowerChars jc.2
    if hasAnyRx table_header_rx cell then ((jc.1 : Int), t.2.1, t.2.2)
    else if hasAnyRx value_header_rx cell then (t.1, (jc.1 : Int), t.2.2)
    else if hasAnyRx range_header_rx cell then (t.1, t.2.1, (jc.1 : Int))
    else t) (-1, -1, -1)

/-- Python list indexing, including the negative-index convention
(`row[-1]` is the last cell), total on the in-range indices the source
reaches. -/
def pyGet (row : List (List Char)) (i : Int) : List Char :=
  if 0 ≤ i then row.getD i.toNat []
  else row.getD (row.length - (-i).toNat) []

/-- The `max(col for col in cols if col >= 0)`; at its call site the filtered
list is never empty, so the default 0 never matters. -/
def maxNonneg (l : List Int) : Int :=
  (l.filter (fun x => decide (0 ≤ x))).foldl max 0

/-- The `LabTestParser.parse_table_data`. -/
def parse_table_data (td : List (List (List Char))) : List LabTest :=
  if td.isEmpty || (td.headD []).isEmpty then []
  else
    let t0 := tdScanHdr (td.headD [])
    let dflt := decide (t0.1 = -1) && decide (t0.2.1 = -1)
    let tn : Int := if dflt then 0 else t0.1
    let vl : Int := if dflt then 1 else t0.2.1
    let rg : Int := if dflt then (if (td.headD []).length > 2 then 2 else t0.2.2) else t0.2.2
    let dataRows := if dflt then td else td.drop 1
    dataRows.foldl (fun acc row =>
      if decide ((row.length : Int) ≤ maxNonneg [tn, vl, rg]) then acc
      else
        let test_name := pyStrip (pyGet row tn)
        let value_str := pyStrip (pyGet row vl)
        let rng_s := if decide (0 ≤ rg) && decide (rg < (row.length : Int)) then
            pyStrip (pyGet row rg)
          else chars ("N/A")
        if !test_name.isEmpty && !value_str.isEmpty then
          acc ++ [format_lab_test test_name value_str rng_s]
        else acc) []

/-! ### `app/text_extractor.py` -/

/-- A recognized word box / structured line: text plus bounding box.
(`TextExtractor` attaches a confidence too, but none of the embedded
operations reads it.) -/
structure WordBox where
  text : List Char
  x : ℚ
  y : ℚ
  width : ℚ
  height : ℚ
deriving DecidableEq

/-- Stable insertion of `x` after every kept element (`le y x` keeps `y`
in front), giving Python's stable `sorted`. -/
def insStable {α : Type} (le : α → α → Bool) (x : α) : List α → List α
  | [] => [x]
  | y :: ys => if le y x then y :: insStable le x ys else x :: y :: ys

/-- Stable sort by a boolean `≤` (Python `sorted`). -/
def sortStable {α : Type} (le : α → α → Bool) (l : List α) : List α :=
  l.foldl (fun acc x => insStable le x acc) []

/-- The `sorted(boxes, key=lambda box: box['y'])`. -/
def sortByY (l : List WordBox) : List WordBox :=
  sortStable (fun a b => decide (a.y ≤ b.y)) l

/-- The `sorted(line, key=lambda b: b['x'])`. -/
def sortByX (l : List WordBox) : List WordBox :=
  sortStable (fun a b => decide (a.x ≤ b.x)) l

/-- The `0.5 * height`: the line tolerance computed from a seed box. -/
def qHalf (q : ℚ) : ℚ := qMul q (mkRat 1 2)

/-- Membership test of `_group_by_lines`: `abs(box['y'] - current_y) <= y_tolerance`. -/
def sameLine (refY tol : ℚ) (b : WordBox) : Bool :=
  decide (qAbs (qSub b.y refY) ≤ tol)

/-- The accumulation loop of `_group_by_lines`; `cur` is `current_line`
(never empty, its head is the seed whose `y` the source re-reads each
iteration as `current_line[0]['y']`). -/
def groupLoop : List WordBox → List WordBox → ℚ → List (List WordBox)
  | [], cur, _ => [sortByX cur]
  | b :: rest, cur, tol =>
    if sameLine (cur.headD b).y tol b then groupLoop rest (cur ++ [b]) tol
    else sortByX cur :: groupLoop rest [b] (qHalf b.height)

/-- The `TextExtractor._group_by_lines`. -/
def group_by_lines (boxes : List WordBox) : List (List WordBox) :=
  match sortByY boxes with
  | [] => []
  | b :: rest => groupLoop rest [b] (qHalf b.height)

/-- The specification of line grouping, written from the spec's words:
after sorting by top y, each line is a seed plus the following boxes while
`|y - seed.y| <= 0.5 * seed.height` (the tolerance fixed by the seed and
never recomputed), each finished line sorted by x; the first failing box
seeds the next line. -/
def specLoop : List WordBox → List (List WordBox)
  | [] => []
  | seed :: rest =>
    sortByX (seed :: rest.takeWhile (sameLine seed.y (qHalf seed.height))) ::
    specLoop (rest.dropWhile (sameLine seed.y (qHalf seed.height)))
termination_by l => l.length
decreasing_by
  simp only [List.length_cons]
  exact Nat.lt_succ_of_le ((List.dropWhile_sublist _).length_le)

/-- Line grouping as the spec describes it. -/
def group_by_lines_spec (boxes : List WordBox) : List (List WordBox) :=
  specLoop (sortByY boxes)

/-- The `min` on ℚ (kernel-friendly). -/
def qMin (a b : ℚ) : ℚ := if decide (a ≤ b) then a else b

/-- The `max` on ℚ (kernel-friendly). -/
def qMax (a b : ℚ) : ℚ := if decide (a ≤ b) then b else a

/-- Python `min(list)` (the source only calls it on non-empty lists). -/
def qListMin : List ℚ → ℚ
  | [] => 0
  | [a] => a
  | a :: rest => qMin a (qListMin rest)

/-- Python `max(list)`. -/
def qListMax : List ℚ → ℚ
  | [] => 0
  | [a] => a
  | a :: rest => qMax a (qListMax rest)

/-- Column intervals from the starts: `end = next start - 1`, and the last
interval ends at `max(x_ends)`. -/
def mkCols : List ℚ → ℚ → List (ℚ × ℚ)
  | [], _ => []
  | [s], hiEnd => [(s, hiEnd)]
  | s :: s' :: rest, hiEnd => (s, qSub s' (mkRat 1 1)) :: mkCols (s' :: rest) hiEnd

/-- The `TextExtractor._detect_columns`.  `np.histogram(x_starts, bins=20,
range=(lo, hi))` is modelled exactly: uniform bin edges, each value goes
to bin `floor((v-lo)*20/(hi-lo))` except that `v = hi` joins the last bin,
values outside `[lo, hi]` are dropped, and a degenerate `lo = hi` range is
widened to `(lo - 0.5, lo + 0.5)` as numpy does.  (numpy raises when
`lo > hi`; that needs a negative box width, which recognized boxes never
have — no columns are returned there.) -/
def detect_columns (lines : List WordBox) : List (ℚ × ℚ) :=
  if lines.isEmpty then []
  else
    let x_starts := lines.map (fun l => l.x)
    let x_ends := lines.map (fun l => qAdd l.x l.width)
    let lo := qListMin x_starts
    let hi := qListMax x_ends
    let lo' := if lo = hi then qSub lo (mkRat 1 2) else lo
    let hi' := if lo = hi then qAdd hi (mkRat 1 2) else hi
    if decide (hi' ≤ lo') then []
    else
      let binIdx : ℚ → Int := fun v =>
        Rat.floor (qDiv (qMul (qSub v lo') (mkRat 20 1)) (qSub hi' lo'))
      let hist : Nat → Nat := fun i =>
        (x_starts.filter (fun v =>
          decide (lo' ≤ v) && decide (v ≤ hi') &&
          (if v = hi' then decide (i = 19) else decide (binIdx v = (i : Int))))).length
      let peak_indices := (List.range' 1 18).filter (fun i =>
        decide (hist (i-1) < hist i) && decide (hist (i+1) < hist i) && decide (1 < hist i))
      let edge : Nat → ℚ := fun i =>
        qAdd lo' (qDiv (qMul (mkRat (Int.ofNat i) 1) (qSub hi' lo')) (mkRat 20 1))
      let column_starts0 := peak_indices.map edge
      let column_starts :=
        if column_starts0.isEmpty || decide (qAdd lo (mkRat 20 1) < column_starts0.headD (mkRat 0 1)) then
          lo :: column_starts0
        else column_starts0
      mkCols column_starts hi

/-- Column lookup of `extract_table_data`: the first interval with
`col_start - 10 <= x < col_end + 10`. -/
def findColIdx : List (ℚ × ℚ) → Nat → ℚ → Option Nat
  | [], _, _ => none
  | (s, e) :: rest, i, x =>
    if decide (qSub s (mkRat 10 1) ≤ x) && decide (x < qAdd e (mkRat 10 1)) then some i
    else findColIdx rest (i + 1) x

/-- The row-building loop of `extract_table_data`: an assignable line
overwrites its cell in the current row; an unassignable one flushes the
row when it holds any non-empty cell; the final row is flushed under the
same guard. -/
def tblLoop (cols : List (ℚ × ℚ)) (n : Nat) :
    List WordBox → List (List Char) → List (List (List Char))
  | [], cur => if cur.any (fun c => !c.isEmpty) then [cur] else []
  | l :: rest, cur =>
    match findColIdx cols 0 l.x with
    | some i => tblLoop cols n rest (cur.set i (pyStrip l.text))
    | none =>
      if cur.any (fun c => !c.isEmpty) then
        cur :: tblLoop cols n rest (List.replicate n [])
      else tblLoop cols n rest cur

/-- The `TextExtractor.extract_table_data`, from the structured lines that
`extract_structured_data` recovered from OCR (the pure tail of the
method). -/
def extract_table_data (lines : List WordBox) : List (List (List Char)) :=
  let columns := detect_columns lines
  tblLoop columns columns.length lines (List.replicate columns.length [])

/-! ### `app/image_processor.py` -/

/-- An external contour as `detect_table_regions` consumes it: its
`cv2.contourArea` and its `cv2.boundingRect`. -/
structure Contour where
  area : ℚ
  x : ℚ
  y : ℚ
  w : ℚ
  h : ℚ
deriving DecidableEq

/-- The `image_processor.detect_table_regions`, given the external contours of
the enhanced image: keep `area > 1000` and aspect ratio strictly between
0.5 and 5, and return the bounding rectangles. -/
def detect_table_regions (contours : List Contour) : List (ℚ × ℚ × ℚ × ℚ) :=
  contours.foldl (fun acc c =>
    if decide (mkRat 1000 1 < c.area) then
      if decide (mkRat 1 2 < qDiv c.w c.h) && decide (qDiv c.w c.h < mkRat 5 1) then
        acc ++ [(c.x, c.y, c.w, c.h)]
      else acc
    else acc) []

/-- Region detection as the spec's words state it: pixel area above 1000
and aspect ratio in the closed interval `[0.5, 5.0]`. -/
def detect_table_regions_claim (contours : List Contour) : List (ℚ × ℚ × ℚ × ℚ) :=
  (contours.filter (fun c =>
    decide (mkRat 1000 1 < c.area) &&
    decide (mkRat 1 2 ≤ qDiv c.w c.h) && decide (qDiv c.w c.h ≤ mkRat 5 1))).map
    (fun c => (c.x, c.y, c.w, c.h))

/-! ### `app/main.py` -/

/-- The collaborators `process_lab_report` calls, over an abstract image
type: `deskew` is `deskew_image`, `preprocess` is `preprocess_image`,
`ocrText` is `text_extractor.extract_text`, `regions` is
`detect_table_regions` on the image, `crop` is `crop_to_roi`, `tableData`
is `text_extractor.extract_table_data` (whose raising the source catches),
and `structuredData` is `text_extractor.extract_structured_data` returning
the per-line texts (the only part the source reads). -/
structure PipeEnv (Img : Type) where
  deskew : Img → Img
  preprocess : Img → Img
  ocrText : Img → List Char
  regions : Img → List (ℚ × ℚ × ℚ × ℚ)
  crop : Img → ℚ × ℚ × ℚ × ℚ → Img
  tableData : Img → Except Unit (List (List (List Char)))
  structuredData : Img → Except Unit (List (List Char))

/-- The dedup loop of `process_lab_report` (lines 160-167): first
occurrence of each `test_name` wins. -/
def dedupGo : List LabTest → List (List Char) → List LabTest
  | [], _ => []
  | t :: rest, seen =>
    if decide (t.test_name ∈ seen) then dedupGo rest seen
    else t :: dedupGo rest (t.test_name :: seen)

/-- The `process_lab_report`'s name-based deduplication. -/
def dedupByName (l : List LabTest) : List LabTest := dedupGo l []

/-- The `main.process_lab_report`. -/
def process_lab_report {Img : Type} (env : PipeEnv Img) (image : Img) : List LabTest :=
  let deskewed := env.deskew image
  let processed := env.preprocess deskewed
  let full_text := env.ocrText processed
  let lab_tests := parse_text full_text
  if !lab_tests.isEmpty then lab_tests
  else
    let table_regions := env.regions deskewed
    let all0 := table_regions.foldl (fun acc r =>
      let table_image := env.crop deskewed r
      let processed_table := env.preprocess table_image
      match env.tableData processed_table with
      | .ok td => acc ++ parse_table_data td
      | .error _ => acc ++ parse_text (env.ocrText processed_table)) []
    let all := if all0.isEmpty then
        match env.structuredData processed with
        | .ok sls => parse_text (joinNL sls)
        | .error _ => []
      else all0
    dedupByName all

/-- A pipeline whose OCR reads the same duplicated line twice (the OCR
engine is an external collaborator; this is one possible behavior of it). -/
def envDup : PipeEnv Unit :=
  { deskew := id, preprocess := id,
    ocrText := fun _ => chars ("Glucose: 99\nGlucose: 99"),
    regions := fun _ => [], crop := fun _ _ => (),
    tableData := fun _ => .ok [], structuredData := fun _ => .ok [] }

/-- A pipeline whose OCR finds nothing at all. -/
def envNil : PipeEnv Unit :=
  { deskew := id, preprocess := id,
    ocrText := fun _ => [],
    regions := fun _ => [], crop := fun _ _ => (),
    tableData := fun _ => .ok [], structuredData := fun _ => .ok [] }

/-! ### Concrete inputs used by the theorems -/

/-- Scenario 1's text. -/
def sc1text : List Char :=
  chars ("Hemoglobin: 14.2 (12.0-16.0)\nWBC: 11000 (4000-11000)")

/-- A text the delimiter heuristic judges tabular (four commas on one
line) although the tabular parser extracts nothing from it, while
pattern 1 would match it. -/
def cx1text : List Char := chars ("Hemoglobin: 14.2,,,,")

/-- Four boxes with left x 10, 12, 200 and 205 and zero widths, so the
left-x histogram spans [10, 205] as in Scenario 4. -/
def c7ex : List WordBox :=
  [⟨chars ("a"), mkRat 10 1, mkRat 0 1, mkRat 0 1, mkRat 1 1⟩,
   ⟨chars ("b"), mkRat 12 1, mkRat 0 1, mkRat 0 1, mkRat 1 1⟩,
   ⟨chars ("c"), mkRat 200 1, mkRat 0 1, mkRat 0 1, mkRat 1 1⟩,
   ⟨chars ("d"), mkRat 205 1, mkRat 0 1, mkRat 0 1, mkRat 1 1⟩]

/-- A one-line input whose grid has one column and one row. -/
def c10ex : List WordBox :=
  [⟨chars ("A"), mkRat 0 1, mkRat 0 1, mkRat 5 1, mkRat 1 1⟩]

/-- A contour with area 2000 and aspect ratio exactly 0.5. -/
def ctrHalf : Contour :=
  ⟨mkRat 2000 1, mkRat 0 1, mkRat 0 1, mkRat 10 1, mkRat 20 1⟩

/-- The argument shape `\d+\.?\d*` (as matched in full): a non-empty digit
run, optionally followed by a dot and a digit run. -/
def numShape (X : List Char) : Prop :=
  ∃ ds1 ds2 : List Char, (∀ c ∈ ds1, c.isDigit = true) ∧
    (∀ c ∈ ds2, c.isDigit = true) ∧ ds1 ≠ [] ∧
    (X = ds1 ∨ X = ds1 ++ '.' :: ds2)

/-! ### Helper lemmas -/

/-- The dedup loop emits pairwise-distinct names, none of them in `seen`. -/
theorem dedupGo_nodup (l : List LabTest) : ∀ seen : List (List Char),
    ((dedupGo l seen).map (fun t => t.test_name)).Nodup ∧
    ∀ t ∈ dedupGo l seen, t.test_name ∉ seen := by
  induction l with
  | nil => intro seen; simp [dedupGo]
  | cons t rest ih =>
    intro seen
    by_cases h : t.test_name ∈ seen
    · simpa [dedupGo, h] using ih seen
    · have hstep : dedupGo (t :: rest) seen = t :: dedupGo rest (t.test_name :: seen) := by
        simp [dedupGo, h]
      rw [hstep]
      refine ⟨?_, ?_⟩
      · simp only [List.map_cons, List.nodup_cons]
        refine ⟨?_, (ih _).1⟩
        intro hmem
        obtain ⟨u, hu, hname⟩ := List.mem_map.mp hmem
        exact (ih _).2 u hu (by rw [hname]; exact List.mem_cons_self _ _)
      · intro u hu
        rcases List.mem_cons.mp hu with rfl | hu'
        · exact h
        · exact fun hin => (ih _).2 u hu' (List.mem_cons_of_mem _ hin)

/-- Invariant of the row-building loop: every emitted row has width `n`
and holds a non-empty cell. -/
theorem tblLoop_inv (cols : List (ℚ × ℚ)) (n : Nat) (pend : List WordBox) :
    ∀ cur : List (List Char), cur.length = n →
      ∀ row ∈ tblLoop cols n pend cur, row.length = n ∧ ∃ c ∈ row, c ≠ [] := by
  induction pend with
  | nil =>
    intro cur hlen row hrow
    by_cases h : cur.any (fun c => !c.isEmpty) = true
    · simp only [tblLoop, h, if_true, List.mem_singleton] at hrow
      subst hrow
      refine ⟨hlen, ?_⟩
      obtain ⟨c, hc, hcne⟩ := List.any_eq_true.mp h
      refine ⟨c, hc, ?_⟩
      cases c with
      | nil => simp at hcne
      | cons a l => exact List.cons_ne_nil a l
    · simp [tblLoop, h] at hrow
  | cons l rest ih =>
    intro cur hlen row hrow
    simp only [tblLoop] at hrow
    cases hfind : findColIdx cols 0 l.x with
    | some i =>
      rw [hfind] at hrow
      exact ih _ (by simpa using hlen) row hrow
    | none =>
      rw [hfind] at hrow
      by_cases h : cur.any (fun c => !c.isEmpty) = true
      · rw [if_pos h] at hrow
        rcases List.mem_cons.mp hrow with rfl | hrow'
        · refine ⟨hlen, ?_⟩
          obtain ⟨c, hc, hcne⟩ := List.any_eq_true.mp h
          refine ⟨c, hc, ?_⟩
          cases c with
          | nil => simp at hcne
          | cons a l' => exact List.cons_ne_nil a l'
        · exact ih _ (List.length_replicate n _) row hrow'
      · rw [if_neg h] at hrow
        exact ih _ hlen row hrow

/-- The accumulation loop of `_group_by_lines` equals the spec's
seed/takeWhile description of it. -/
theorem groupLoop_eq (pend : List WordBox) :
    ∀ (seed : WordBox) (acc : List WordBox) (tol : ℚ),
      groupLoop pend (seed :: acc) tol =
        sortByX ((seed :: acc) ++ pend.takeWhile (sameLine seed.y tol)) ::
          specLoop (pend.dropWhile (sameLine seed.y tol)) := by
  induction pend with
  | nil => intro seed acc tol; simp [groupLoop, specLoop]
  | cons b rest ih =>
    intro seed acc tol
    simp only [groupLoop, List.headD_cons]
    by_cases h : sameLine seed.y tol b = true
    · rw [if_pos h, show (seed :: acc) ++ [b] = seed :: (acc ++ [b]) from rfl] at *
      rw [ih seed (acc ++ [b]) tol]
      simp [List.takeWhile_cons, List.dropWhile_cons, h, List.append_assoc]
    · rw [if_neg (by simpa using h)]
      rw [ih b [] (qHalf b.height)]
      have ht : (b :: rest).takeWhile (sameLine seed.y tol) = [] := by
        simp [List.takeWhile_cons, h]
      have hd : (b :: rest).dropWhile (sameLine seed.y tol) = b :: rest := by
        simp [List.dropWhile_cons, h]
      rw [ht, hd, List.append_nil]
      rw [show specLoop (b :: rest) =
        sortByX (b :: rest.takeWhile (sameLine b.y (qHalf b.height))) ::
          specLoop (rest.dropWhile (sameLine b.y (qHalf b.height))) from by rw [specLoop]]
      simp

/-- The region filter, folded form versus filter/map form. -/
theorem regionsFold (l : List Contour) :
    ∀ acc : List (ℚ × ℚ × ℚ × ℚ),
      l.foldl (fun acc c =>
        if decide (mkRat 1000 1 < c.area) then
          if decide (mkRat 1 2 < qDiv c.w c.h) && decide (qDiv c.w c.h < mkRat 5 1) then
            acc ++ [(c.x, c.y, c.w, c.h)]
          else acc
        else acc) acc =
      acc ++ (l.filter (fun c => decide (mkRat 1000 1 < c.area) &&
        (decide (mkRat 1 2 < qDiv c.w c.h) && decide (qDiv c.w c.h < mkRat 5 1)))).map
        (fun c => (c.x, c.y, c.w, c.h)) := by
  induction l with
  | nil => intro acc; simp
  | cons c t ih =>
    intro acc
    rw [List.foldl_cons, List.filter_cons]
    by_cases h1 : decide (mkRat 1000 1 < c.area) = true
    · by_cases h2 : (decide (mkRat 1 2 < qDiv c.w c.h) && decide (qDiv c.w c.h < mkRat 5 1)) = true
      · rw [if_pos h1, if_pos h2, if_pos (by rw [h1, h2]; rfl), ih]
        simp
      · have hb2 : (decide (mkRat 1 2 < qDiv c.w c.h) && decide (qDiv c.w c.h < mkRat 5 1)) = false := by
          simpa using h2
        rw [if_pos h1, if_neg h2, if_neg (by rw [h1, hb2]; simp), ih]
    · have hb1 : decide (mkRat 1000 1 < c.area) = false := by simpa using h1
      rw [if_neg h1, if_neg (by rw [hb1]; simp), ih]

/-- The Boolean `pfIsNinf` is false exactly on the floats other than `-inf`. -/
theorem pfIsNinf_false (m : PyF) : pfIsNinf m = false ↔ m ≠ PyF.ninf := by
  cases m <;> simp [pfIsNinf]

/-- The Boolean `pfIsInf` is false exactly on the floats other than `+inf`. -/
theorem pfIsInf_false (m : PyF) : pfIsInf m = false ↔ m ≠ PyF.inf := by
  cases m <;> simp [pfIsInf]

/-! ### The claims -/

/-- C1, corrected claim: `parse_text` runs the tabular parser and returns
its result — even an empty one — whenever the tabular-format test fires;
only otherwise are the four regex templates unioned, with the aggressive
fallback running exactly when that union is empty. -/
theorem strategy_order (text : List Char) :
    (is_tabular_format text = true → parse_text text = parse_tabular_format text) ∧
    (is_tabular_format text = false →
      parse_text text =
        if patternTests text = [] then parse_aggressive text else patternTests text) := by
  constructor
  · intro h; simp [parse_text, h]
  · intro h
    simp only [parse_text, h, Bool.false_eq_true, if_false]
    cases hp : patternTests text with
    | nil => simp [hp]
    | cons a l => simp [hp]

/-- C1, witness: on the comma-heavy text the tabular branch is taken. -/
theorem strategy_order_witness :
    parse_text cx1text = parse_tabular_format cx1text :=
  (strategy_order cx1text).1 (by decide)

/-- C1, counterexample: `"Hemoglobin: 14.2,,,,"` is judged tabular, the
tabular parser extracts nothing, and `parse_text` returns the empty list
although the regex templates (and even the aggressive fallback) would
each extract a record — so the regex stage is not attempted after an
empty tabular result, contrary to the claim. -/
theorem strategy_order_cx :
    is_tabular_format cx1text = true ∧ parse_tabular_format cx1text = [] ∧
    parse_text cx1text = [] ∧ patternTests cx1text ≠ [] ∧
    parse_aggressive cx1text ≠ [] := by decide

/-- C2, corrected claim: the name deduplication (first occurrence wins)
applies only on the fallback path, taken when the first full-image parse
finds nothing; when that first parse yields records they are returned
as-is, without deduplication. -/
theorem dedup_boundary {Img : Type} (env : PipeEnv Img) (image : Img) :
    (parse_text (env.ocrText (env.preprocess (env.deskew image))) = [] →
      ((process_lab_report env image).map (fun t => t.test_name)).Nodup) ∧
    (parse_text (env.ocrText (env.preprocess (env.deskew image))) ≠ [] →
      process_lab_report env image =
        parse_text (env.ocrText (env.preprocess (env.deskew image)))) := by
  constructor
  · intro h
    simp only [process_lab_report, h, List.isEmpty_nil, Bool.not_true,
      Bool.false_eq_true, if_false]
    exact (dedupGo_nodup _ _).1
  · intro h
    simp only [process_lab_report]
    cases hp : parse_text (env.ocrText (env.preprocess (env.deskew image))) with
    | nil => exact absurd hp h
    | cons a l => simp [hp]

/-- C2, witness: a pipeline whose OCR reads nothing reaches the fallback
path and so returns pairwise-distinct names. -/
theorem dedup_boundary_witness :
    ((process_lab_report envNil ()).map (fun t => t.test_name)).Nodup :=
  (dedup_boundary envNil ()).1 (by decide)

/-- C2, counterexample: when the full-image OCR text parses to two records
with the same cleaned name, the pipeline returns both — the final list
does contain two records with the same cleaned test name. -/
theorem dedup_boundary_cx :
    (process_lab_report envDup ()).map (fun t => t.test_name) =
      [chars ("Glucose"), chars ("Glucose")] ∧
    ¬ ((process_lab_report envDup ()).map (fun t => t.test_name)).Nodup := by decide

/-- C3, corrected claim: the out-of-range flag is true exactly when the
parsed minimum is not `-inf` and the value is float-below it, or the parsed
maximum is not `+inf` and the value is float-above it (the code's
`min_val != float("-inf")` / `max_val != float("inf")` tests, not
finiteness); when both parsed bounds are finite this is the original
criterion — strict comparisons against the bounds, so a value equal to a
bound is not flagged — but a `+inf` minimum, reachable from an `inf` or
overflowing left endpoint of an `"A-B"` range, flags every value below it
although the original claim's finiteness criterion says no flag. -/
theorem range_flag_amended :
    (∀ (v : PyF) (rs : List Char),
       is_value_out_of_range v rs = true ↔
         ((parse_reference_range rs).1 ≠ PyF.ninf ∧
            pfLt v (parse_reference_range rs).1 = true) ∨
         ((parse_reference_range rs).2 ≠ PyF.inf ∧
            pfLt (parse_reference_range rs).2 v = true)) ∧
    (∀ (v qmin qmax : ℚ) (rs : List Char),
       (parse_reference_range rs).1 = PyF.fin qmin →
       (parse_reference_range rs).2 = PyF.fin qmax →
       (is_value_out_of_range (.fin v) rs = true ↔ v < qmin ∨ qmax < v)) := by
  have hiff : ∀ (v : PyF) (rs : List Char),
      is_value_out_of_range v rs = true ↔
        ((parse_reference_range rs).1 ≠ PyF.ninf ∧
           pfLt v (parse_reference_range rs).1 = true) ∨
        ((parse_reference_range rs).2 ≠ PyF.inf ∧
           pfLt (parse_reference_range rs).2 v = true) := by
    intro v rs
    simp only [is_value_out_of_range]
    by_cases h1 : (!(pfIsNinf (parse_reference_range rs).1) &&
        pfLt v (parse_reference_range rs).1) = true
    · rw [if_pos h1]
      simp only [Bool.and_eq_true, Bool.not_eq_true'] at h1
      exact ⟨fun _ => Or.inl ⟨(pfIsNinf_false _).mp h1.1, h1.2⟩, fun _ => rfl⟩
    · rw [if_neg h1]
      by_cases h2 : (!(pfIsInf (parse_reference_range rs).2) &&
          pfLt (parse_reference_range rs).2 v) = true
      · rw [if_pos h2]
        simp only [Bool.and_eq_true, Bool.not_eq_true'] at h2
        exact ⟨fun _ => Or.inr ⟨(pfIsInf_false _).mp h2.1, h2.2⟩, fun _ => rfl⟩
      · rw [if_neg h2]
        constructor
        · intro h; exact absurd h (by simp)
        · rintro (⟨hne, hlt⟩ | ⟨hne, hlt⟩)
          · exact absurd (by rw [(pfIsNinf_false _).mpr hne, hlt]; rfl) h1
          · exact absurd (by rw [(pfIsInf_false _).mpr hne, hlt]; rfl) h2
  refine ⟨hiff, ?_⟩
  intro v qmin qmax rs h1 h2
  rw [hiff (.fin v) rs, h1, h2]
  simp [pfLt]

/-- C3, witness: in range `"4000-11000"` both parsed bounds are finite, and
the boundary value 11000 is not flagged out of range. -/
theorem range_flag_witness :
    is_value_out_of_range (.fin (mkRat 11000 1)) (chars ("4000-11000")) = false := by
  have h := range_flag_amended.2 (mkRat 11000 1) (mkRat 4000 1) (mkRat 11000 1)
    (chars ("4000-11000")) (by decide) (by decide)
  cases hb : is_value_out_of_range (.fin (mkRat 11000 1)) (chars ("4000-11000")) with
  | false => rfl
  | true => exact absurd (h.mp hb) (by decide)

/-- C3, counterexample: `parse_reference_range` can return a `+inf` minimum
— `float("inf")` parses, and `float("1e999")` overflows to `inf` — and then
`is_value_out_of_range` flags the value -5 against range `"inf-0"` because
the code tests `min_val != float("-inf")`, although the original claim's
criterion (minimum finite and value below it, or maximum finite and value
above it) is false at this input. -/
theorem range_flag_cx :
    parse_reference_range (chars ("inf-0")) = (.inf, .fin 0) ∧
    parse_reference_range (chars ("1e999-0")) = (.inf, .fin 0) ∧
    is_value_out_of_range (.fin (mkRat (-5) 1)) (chars ("inf-0")) = true ∧
    ¬ ((∃ q, (parse_reference_range (chars ("inf-0"))).1 = PyF.fin q ∧
          mkRat (-5) 1 < q) ∨
       (∃ q, (parse_reference_range (chars ("inf-0"))).2 = PyF.fin q ∧
          q < mkRat (-5) 1)) := by
  refine ⟨by decide, by decide, by decide, ?_⟩
  rw [show parse_reference_range (chars ("inf-0")) = (.inf, .fin 0) by decide]
  rintro (⟨q, hq, _⟩ | ⟨q, hq, hlt⟩)
  · exact PyF.noConfusion hq
  · injection hq with h
    rw [← h] at hlt
    exact absurd hlt (by decide)

/-- C5, corrected claim: Scenario 1's text yields exactly the two records
below — and the WBC flag is `false` (11000 equals the upper bound, and a
boundary value is not out of range), not `true` as the scenario states. -/
theorem scenario_one :
    parse_text sc1text =
      [{ test_name := chars ("Hemoglobin"), test_value := .num (.fin (mkRat 71 5)),
         bio_reference_range := chars ("12.0-16.0"), test_unit := [],
         lab_test_out_of_range := false },
       { test_name := chars ("WBC"), test_value := .num (.fin (mkRat 11000 1)),
         bio_reference_range := chars ("4000-11000"), test_unit := [],
         lab_test_out_of_range := false }] := by decide

/-- C5, counterexample: both flags are `false`; in particular the WBC
record's out-of-range flag is not `true`. -/
theorem scenario_one_cx :
    (parse_text sc1text).length = 2 ∧
    (parse_text sc1text).map (fun t => t.lab_test_out_of_range) = [false, false] ∧
    ¬ ((parse_text sc1text).map (fun t => t.lab_test_out_of_range) = [false, true]) := by decide

/-- C7, corrected claim: for the four boxes of Scenario 4 the two clusters
land in the first and last histogram bins, which the peak scan (interior
bins only) never inspects; no peak candidate exists, the global minimum 10
is prepended, and column detection infers exactly one column start, 10,
with the single interval reaching 205. -/
theorem columns_scenario :
    (detect_columns c7ex).map Prod.fst = [mkRat 10 1] ∧
    detect_columns c7ex = [(mkRat 10 1, mkRat 205 1)] := by decide

/-- C7, counterexample: the inferred column starts do not number two. -/
theorem columns_scenario_cx :
    ¬ ((detect_columns c7ex).map Prod.fst).length = 2 := by decide

/-- C8, confirmed: line grouping is exactly the spec's description — sort
by top y, fix each seed's y and half its height as the never-recomputed
tolerance, add following boxes while within tolerance, close the line at
the first failure, and sort each finished line by x. -/
theorem grouping_spec (boxes : List WordBox) :
    group_by_lines boxes = group_by_lines_spec boxes := by
  unfold group_by_lines group_by_lines_spec
  cases h : sortByY boxes with
  | nil =>
    show ([] : List (List WordBox)) = specLoop []
    rw [specLoop]
  | cons b rest =>
    show groupLoop rest [b] (qHalf b.height) = specLoop (b :: rest)
    rw [groupLoop_eq rest b [] (qHalf b.height)]
    rw [show specLoop (b :: rest) =
      sortByX (b :: rest.takeWhile (sameLine b.y (qHalf b.height))) ::
        specLoop (rest.dropWhile (sameLine b.y (qHalf b.height))) from by rw [specLoop]]
    simp

/-- C9, corrected claim: region detection keeps exactly the contours with
area above 1000 and aspect ratio strictly between 0.5 and 5 (the open
interval, not the claimed closed one), mapping them to their bounding
rectangles; it is a total function, empty when nothing qualifies. -/
theorem regions_filter (contours : List Contour) :
    detect_table_regions contours =
      (contours.filter (fun c => decide (mkRat 1000 1 < c.area) &&
        (decide (mkRat 1 2 < qDiv c.w c.h) && decide (qDiv c.w c.h < mkRat 5 1)))).map
        (fun c => (c.x, c.y, c.w, c.h)) := by
  unfold detect_table_regions
  rw [regionsFold contours []]
  simp

/-- C9, counterexample: a contour of area 2000 with aspect ratio exactly
0.5 is excluded by the code but included by the claim's closed interval. -/
theorem regions_filter_cx :
    detect_table_regions [ctrHalf] = [] ∧
    detect_table_regions_claim [ctrHalf] =
      [(mkRat 0 1, mkRat 0 1, mkRat 10 1, mkRat 20 1)] := by decide

/-- C10, confirmed: every row the grid extraction emits has exactly one
cell per detected column, and some cell of it is a non-empty string. -/
theorem grid_shape (lines : List WordBox) (row : List (List Char))
    (hrow : row ∈ extract_table_data lines) :
    row.length = (detect_columns lines).length ∧ ∃ c ∈ row, c ≠ [] := by
  refine tblLoop_inv (detect_columns lines) (detect_columns lines).length lines
    (List.replicate (detect_columns lines).length []) (by simp) row ?_
  simpa [extract_table_data] using hrow

/-- C10, witness: the one-line input produces the row `["A"]`, which has
the one detected column's width and a non-empty cell. -/
theorem grid_shape_witness :
    ([chars ("A")] : List (List Char)).length = (detect_columns c10ex).length ∧
    ∃ c ∈ [chars ("A")], c ≠ ([] : List Char) :=
  grid_shape c10ex [chars ("A")] (by decide)

/-! ### Lemmas for the reference-range claim -/

/-- A run of `p`-characters stopped by `y` has the run's length. -/
theorem leadRun_append (p : Char → Bool) (xs : List Char) (y : Char) (ys : List Char)
    (hxs : ∀ c ∈ xs, p c = true) (hy : p y = false) :
    leadRun p (xs ++ y :: ys) = xs.length := by
  induction xs with
  | nil => simp [leadRun, hy]
  | cons c t ih =>
    have hc : p c = true := hxs c (List.mem_cons_self _ _)
    simp only [List.cons_append, leadRun, hc, if_true, List.length_cons, List.append_eq]
    rw [ih (fun d hd => hxs d (List.mem_cons_of_mem _ hd))]

/-- An all-`p` list is one leading run. -/
theorem leadRun_all (p : Char → Bool) (xs : List Char) (hxs : ∀ c ∈ xs, p c = true) :
    leadRun p xs = xs.length := by
  induction xs with
  | nil => rfl
  | cons c t ih =>
    have hc : p c = true := hxs c (List.mem_cons_self _ _)
    simp only [leadRun, hc, if_true, List.length_cons]
    rw [ih (fun d hd => hxs d (List.mem_cons_of_mem _ hd))]

/-- A failing head stops the run at once. -/
theorem leadRun_head_false (p : Char → Bool) (c : Char) (t : List Char) (hc : p c = false) :
    leadRun p (c :: t) = 0 := by
  simp [leadRun, hc]

/-- The greedy star's preferred way drops the whole leading run. -/
theorem mtc_star_head (p : Char → Bool) (cs : List Char) (k : Caps) :
    (mtc (.starCls p) cs k).head? = some (cs.drop (leadRun p cs), k) := by
  simp only [mtc, List.range_succ_eq_map, List.map_cons, List.head?_cons, Nat.sub_zero]

/-- Heads compose through concatenation of patterns. -/
theorem mtc_seq_head {a b : Rx} {cs : List Char} {k : Caps} {w u : List Char × Caps}
    (ha : (mtc a cs k).head? = some w) (hb : (mtc b w.1 w.2).head? = some u) :
    (mtc (.seq a b) cs k).head? = some u := by
  simp only [mtc]
  cases hma : mtc a cs k with
  | nil => rw [hma] at ha; simp at ha
  | cons w0 t =>
    rw [hma] at ha
    simp only [List.head?_cons, Option.some.injEq] at ha
    subst ha
    cases hmb : mtc b w0.1 w0.2 with
    | nil => rw [hmb] at hb; simp at hb
    | cons u0 t2 =>
      rw [hmb] at hb
      simp only [List.head?_cons, Option.some.injEq] at hb
      subst hb
      simp [List.flatMap_cons, hmb]

/-- A group records exactly the consumed text of its body's best way. -/
theorem mtc_grp_head {a : Rx} {i : Nat} {cs : List Char} {k : Caps} {w : List Char × Caps}
    (ha : (mtc a cs k).head? = some w) :
    (mtc (.grp i a) cs k).head? =
      some (w.1, (i, cs.take (cs.length - w.1.length)) :: w.2) := by
  simp only [mtc, List.head?_map, ha, Option.map_some']

/-- A succeeding optional part keeps its body's best way. -/
theorem mtc_opt_head {a : Rx} {cs : List Char} {k : Caps} {w : List Char × Caps}
    (ha : (mtc a cs k).head? = some w) :
    (mtc (.opt a) cs k).head? = some w := by
  simp only [mtc]
  cases hma : mtc a cs k with
  | nil => rw [hma] at ha; simp at ha
  | cons w0 t => rw [hma] at ha; simpa using ha

/-- A failing optional part matches nothing. -/
theorem mtc_opt_none {a : Rx} {cs : List Char} {k : Caps} (ha : mtc a cs k = []) :
    mtc (.opt a) cs k = [(cs, k)] := by
  simp [mtc, ha]

/-- A class consumes its one matching character. -/
theorem mtc_cls_cons {p : Char → Bool} {c : Char} {t : List Char} {k : Caps}
    (hc : p c = true) : mtc (.cls p) (c :: t) k = [(t, k)] := by
  simp [mtc, hc]

/-- A match at the very head makes the search succeed at position 0. -/
theorem srchIn_head (r : Rx) (cs : List Char) (w : List Char × Caps)
    (h : (mtc r cs []).head? = some w) :
    srchIn r cs = some (0, cs.length - w.1.length, w.2) := by
  cases cs with
  | nil => simp [srchIn, srchA, h]
  | cons c t => simp [srchIn, srchA, h]

/-- Digits differ from every non-digit character. -/
theorem digit_ne (c x : Char) (hc : digitC c = true) (hx : digitC x = false) : c ≠ x := by
  rintro rfl
  rw [hc] at hx
  exact absurd hx (by simp)

/-- Digits are not whitespace. -/
theorem digit_not_ws (c : Char) (hc : digitC c = true) : isPySpace c = false := by
  have h1 : c ≠ ' ' := digit_ne c ' ' hc (by decide)
  have h2 : c ≠ '\t' := digit_ne c '\t' hc (by decide)
  have h3 : c ≠ '\n' := digit_ne c '\n' hc (by decide)
  have h4 : c ≠ '\x0d' := digit_ne c '\x0d' hc (by decide)
  have h5 : c ≠ '\x0b' := digit_ne c '\x0b' hc (by decide)
  have h6 : c ≠ '\x0c' := digit_ne c '\x0c' hc (by decide)
  simp [isPySpace, h1, h2, h3, h4, h5, h6]

/-- The `dropWhile` is the identity on a list with no `p`-character at all. -/
theorem dropWhile_none (p : Char → Bool) (l : List Char) (h : ∀ c ∈ l, p c = false) :
    l.dropWhile p = l := by
  cases l with
  | nil => rfl
  | cons c t => simp [List.dropWhile_cons, h c (List.mem_cons_self _ _)]

/-- The `strip` is the identity on whitespace-free text. -/
theorem pyStrip_id (l : List Char) (h : ∀ c ∈ l, isPySpace c = false) : pyStrip l = l := by
  unfold pyStrip
  rw [dropWhile_none _ l h,
    dropWhile_none _ l.reverse (fun c hc => h c (List.mem_reverse.mp hc)),
    List.reverse_reverse]

/-- Characters of a stripped string come from the string. -/
theorem mem_pyStrip {c : Char} {l : List Char} (h : c ∈ pyStrip l) : c ∈ l := by
  unfold pyStrip at h
  have h1 := List.mem_reverse.mp h
  have h2 := (List.dropWhile_sublist _).subset h1
  have h3 := List.mem_reverse.mp h2
  exact (List.dropWhile_sublist _).subset h3

/-- The `hasCh` is false when the character occurs nowhere. -/
theorem hasCh_false (x : Char) (l : List Char) (h : ∀ c ∈ l, c ≠ x) : hasCh x l = false := by
  simp only [hasCh, List.any_eq_false, decide_eq_true_eq]
  exact fun c hc => h c hc

/-- The `hasCh` is true when the character occurs. -/
theorem hasCh_true (x : Char) (l : List Char) (h : x ∈ l) : hasCh x l = true := by
  simp only [hasCh, List.any_eq_true, decide_eq_true_eq]
  exact ⟨x, h, rfl⟩

/-- A separator-free list splits into itself. -/
theorem pySplit_no_sep (sep : Char) (l : List Char) (h : ∀ c ∈ l, c ≠ sep) :
    pySplit sep l = [l] := by
  induction l with
  | nil => rfl
  | cons c t ih =>
    have hc : ¬ c = sep := h c (List.mem_cons_self _ _)
    simp only [pySplit, hc, if_false]
    rw [ih (fun d hd => h d (List.mem_cons_of_mem _ hd))]

/-- One separator between two separator-free parts splits into the parts. -/
theorem pySplit_mid (sep : Char) (a b : List Char) (ha : ∀ c ∈ a, c ≠ sep)
    (hb : ∀ c ∈ b, c ≠ sep) : pySplit sep (a ++ sep :: b) = [a, b] := by
  induction a with
  | nil =>
    simp only [List.nil_append, pySplit]
    rw [pySplit_no_sep sep b hb]
    simp
  | cons c t ih =>
    have hc : ¬ c = sep := ha c (List.mem_cons_self _ _)
    simp only [List.cons_append, pySplit, hc, if_false, List.append_eq]
    rw [ih (fun d hd => ha d (List.mem_cons_of_mem _ hd))]

/-- Greedy matching of `\d+\.?\d*` consumes a whole numeral, dotted or
not, when nothing follows it. -/
theorem mtc_numRx_head (d : Char) (t ds2 : List Char)
    (h1 : ∀ c ∈ d :: t, digitC c = true) (h2 : ∀ c ∈ ds2, digitC c = true) (k : Caps) :
    (mtc numRx (d :: t) k).head? = some ([], k) ∧
    (mtc numRx ((d :: t) ++ '.' :: ds2) k).head? = some ([], k) := by
  have hd : digitC d = true := h1 d (List.mem_cons_self _ _)
  have ht : ∀ c ∈ t, digitC c = true := fun c hc => h1 c (List.mem_cons_of_mem _ hc)
  have hdotd : digitC '.' = false := by decide
  have hdotc : isCh '.' '.' = true := by decide
  constructor
  · -- plain numeral
    show (mtc (.seq (plusCls digitC) (.seq (.opt (.cls (isCh '.')))
      (.seq (.starCls digitC) (.seq .eps .eps)))) (d :: t) k).head? = some ([], k)
    refine mtc_seq_head (w := ([], k)) ?_ ?_
    · -- \d+ eats d :: t fully
      refine mtc_seq_head (w := (t, k)) ?_ ?_
      · rw [mtc_cls_cons hd]; rfl
      · rw [mtc_star_head, leadRun_all digitC t ht, List.drop_length]
    · -- \.? then \d* on []
      refine mtc_seq_head (w := ([], k)) ?_ ?_
      · rw [mtc_opt_none (by simp [mtc])]; rfl
      · refine mtc_seq_head (w := ([], k)) ?_ ?_
        · rw [mtc_star_head]; rfl
        · rfl
  · -- dotted numeral
    show (mtc (.seq (plusCls digitC) (.seq (.opt (.cls (isCh '.')))
      (.seq (.starCls digitC) (.seq .eps .eps)))) ((d :: t) ++ '.' :: ds2) k).head?
      = some ([], k)
    refine mtc_seq_head (w := ('.' :: ds2, k)) ?_ ?_
    · refine mtc_seq_head (w := (t ++ '.' :: ds2, k)) ?_ ?_
      · rw [List.cons_append, mtc_cls_cons hd]; rfl
      · rw [mtc_star_head, leadRun_append digitC t '.' ds2 ht hdotd, List.drop_left]
    · refine mtc_seq_head (w := (ds2, k)) ?_ ?_
      · exact mtc_opt_head (by rw [mtc_cls_cons hdotc]; rfl)
      · refine mtc_seq_head (w := ([], k)) ?_ ?_
        · rw [mtc_star_head, leadRun_all digitC ds2 h2, List.drop_length]
        · rfl

/-- The four angle-bracket patterns capture the whole numeral after the
optional `=`. -/
theorem mtc_angle_head (c0 : Char) (d : Char) (t : List Char)
    (hd : digitC d = true)
    (hnum : ∀ k : Caps, (mtc numRx (d :: t) k).head? = some ([], k)) :
    (mtc (rxSeq [.lit [c0], .starCls isPySpace, .opt (.lit (chars ("="))),
        .starCls isPySpace, .grp 1 numRx]) (c0 :: (d :: t)) []).head?
      = some ([], [(1, d :: t)]) ∧
    (mtc (rxSeq [.lit [c0], .starCls isPySpace, .opt (.lit (chars ("="))),
        .starCls isPySpace, .grp 1 numRx]) (c0 :: '=' :: (d :: t)) []).head?
      = some ([], [(1, d :: t)]) := by
  have hwsd : isPySpace d = false := digit_not_ws d hd
  have hne : ¬ d = '=' := digit_ne d '=' hd (by decide)
  have heq : chars ("=") = ['='] := rfl
  have hgrp : (mtc (.grp 1 numRx) (d :: t) ([] : Caps)).head?
      = some ([], [(1, d :: t)]) := by
    have h := mtc_grp_head (i := 1) (hnum [])
    simpa using h
  constructor
  · show (mtc (.seq (.lit [c0]) (.seq (.starCls isPySpace)
      (.seq (.opt (.lit (chars ("=")))) (.seq (.starCls isPySpace)
      (.seq (.grp 1 numRx) .eps))))) (c0 :: (d :: t)) []).head?
      = some ([], [(1, d :: t)])
    refine mtc_seq_head (w := (d :: t, [])) ?_ ?_
    · simp [mtc, stripLit]
    · refine mtc_seq_head (w := (d :: t, [])) ?_ ?_
      · rw [mtc_star_head, leadRun_head_false isPySpace d t hwsd, List.drop_zero]
      · refine mtc_seq_head (w := (d :: t, [])) ?_ ?_
        · rw [mtc_opt_none (by simp [mtc, heq, stripLit, hne])]; rfl
        · refine mtc_seq_head (w := (d :: t, [])) ?_ ?_
          · rw [mtc_star_head, leadRun_head_false isPySpace d t hwsd, List.drop_zero]
          · refine mtc_seq_head (w := ([], [(1, d :: t)])) hgrp ?_
            rfl
  · show (mtc (.seq (.lit [c0]) (.seq (.starCls isPySpace)
      (.seq (.opt (.lit (chars ("=")))) (.seq (.starCls isPySpace)
      (.seq (.grp 1 numRx) .eps))))) (c0 :: '=' :: (d :: t)) []).head?
      = some ([], [(1, d :: t)])
    refine mtc_seq_head (w := ('=' :: (d :: t), [])) ?_ ?_
    · simp [mtc, stripLit]
    · refine mtc_seq_head (w := ('=' :: (d :: t), [])) ?_ ?_
      · rw [mtc_star_head, leadRun_head_false isPySpace '=' (d :: t) (by decide),
          List.drop_zero]
      · refine mtc_seq_head (w := (d :: t, [])) ?_ ?_
        · exact mtc_opt_head (by simp [mtc, heq, stripLit])
        · refine mtc_seq_head (w := (d :: t, [])) ?_ ?_
          · rw [mtc_star_head, leadRun_head_false isPySpace d t hwsd, List.drop_zero]
          · refine mtc_seq_head (w := ([], [(1, d :: t)])) hgrp ?_
            rfl

/-- Unpacking a `numShape` numeral: head digit, character inventory, and
the full-match property of `numRx` on it. -/
theorem numShape_dec {X : List Char} (h : numShape X) :
    ∃ d t, X = d :: t ∧ digitC d = true ∧ (∀ c ∈ X, digitC c = true ∨ c = '.') ∧
      (∀ k : Caps, (mtc numRx X k).head? = some ([], k)) := by
  obtain ⟨ds1, ds2, hd1, hd2, hne, hx⟩ := h
  cases ds1 with
  | nil => exact absurd rfl hne
  | cons d t =>
    have hd : digitC d = true := hd1 d (List.mem_cons_self _ _)
    rcases hx with rfl | rfl
    · exact ⟨d, t, rfl, hd, fun c hc => Or.inl (hd1 c hc),
        fun k => (mtc_numRx_head d t [] hd1 (by simp) k).1⟩
    · refine ⟨d, t ++ '.' :: ds2, rfl, hd, ?_,
        fun k => (mtc_numRx_head d t ds2 hd1 hd2 k).2⟩
      intro c hc
      rcases List.mem_cons.mp hc with rfl | hc
      · exact Or.inl hd
      · rcases List.mem_append.mp hc with h | h
        · exact Or.inl (hd1 c (List.mem_cons_of_mem _ h))
        · rcases List.mem_cons.mp h with rfl | h
          · exact Or.inr rfl
          · exact Or.inl (hd2 c h)

/-- The `"A-B"` case of the amended range claim: the bounds are the parsed
float values of the endpoints, infinite ones included. -/
theorem prr_dash (a b : List Char) (fa fb : PyF)
    (ha : ∀ c ∈ a, c ≠ '-' ∧ c ≠ '<' ∧ c ≠ '>' ∧ isPySpace c = false)
    (hb : ∀ c ∈ b, c ≠ '-' ∧ c ≠ '<' ∧ c ≠ '>' ∧ isPySpace c = false)
    (hqa : pyParseFloat a = some fa) (hqb : pyParseFloat b = some fb) :
    parse_reference_range (a ++ '-' :: b) = (fa, fb) := by
  have hmem : ∀ c ∈ a ++ '-' :: b,
      c = '-' ∨ (c ≠ '-' ∧ c ≠ '<' ∧ c ≠ '>' ∧ isPySpace c = false) := by
    intro c hc
    rcases List.mem_append.mp hc with h | h
    · exact Or.inr (ha c h)
    · rcases List.mem_cons.mp h with rfl | h
      · exact Or.inl rfl
      · exact Or.inr (hb c h)
  have hstrip : pyStrip (a ++ '-' :: b) = a ++ '-' :: b := pyStrip_id _ (by
    intro c hc
    rcases hmem c hc with rfl | h
    · decide
    · exact h.2.2.2)
  have hdash : hasCh '-' (a ++ '-' :: b) = true := hasCh_true _ _ (by simp)
  have hltf : hasCh '<' (a ++ '-' :: b) = false := hasCh_false _ _ (by
    intro c hc
    rcases hmem c hc with rfl | h
    · decide
    · exact h.2.1)
  have hgtf : hasCh '>' (a ++ '-' :: b) = false := hasCh_false _ _ (by
    intro c hc
    rcases hmem c hc with rfl | h
    · decide
    · exact h.2.2.1)
  have hsplit := pySplit_mid '-' a b (fun c hc => (ha c hc).1) (fun c hc => (hb c hc).1)
  have hsa : pyStrip a = a := pyStrip_id a (fun c hc => (ha c hc).2.2.2)
  have hsb : pyStrip b = b := pyStrip_id b (fun c hc => (hb c hc).2.2.2)
  have hc1 : prrCase1 (a ++ '-' :: b) = some (fa, fb) := by
    simp [prrCase1, hdash, hltf, hgtf, hsplit, hsa, hsb, hqa, hqb]
  simp [parse_reference_range, hstrip, hc1]

/-- The four `"<X"`, `"<=X"`, `">X"`, `">=X"` cases of the amended range
claim: the captured numeral's parsed float value is the bound. -/
theorem prr_angle (X : List Char) (fx : PyF) (hsh : numShape X)
    (hq : pyParseFloat X = some fx) :
    parse_reference_range ('<' :: X) = (.ninf, fx) ∧
    parse_reference_range ('<' :: '=' :: X) = (.ninf, fx) ∧
    parse_reference_range ('>' :: X) = (fx, .inf) ∧
    parse_reference_range ('>' :: '=' :: X) = (fx, .inf) := by
  obtain ⟨d, t, rfl, hd, hchars, hnum⟩ := numShape_dec hsh
  have hXfact : ∀ c ∈ d :: t, c ≠ '-' ∧ c ≠ '<' ∧ c ≠ '>' ∧ isPySpace c = false := by
    intro c hc
    rcases hchars c hc with h | rfl
    · exact ⟨digit_ne c '-' h (by decide), digit_ne c '<' h (by decide),
        digit_ne c '>' h (by decide), digit_not_ws c h⟩
    · exact ⟨by decide, by decide, by decide, by decide⟩
  have hang := mtc_angle_head '<' d t hd hnum
  have hang2 := mtc_angle_head '>' d t hd hnum
  refine ⟨?_, ?_, ?_, ?_⟩
  · have hstrip : pyStrip ('<' :: d :: t) = '<' :: d :: t := pyStrip_id _ (by
      intro c hc
      rcases List.mem_cons.mp hc with rfl | hc
      · decide
      · exact (hXfact c hc).2.2.2)
    have hdashf : hasCh '-' ('<' :: d :: t) = false := hasCh_false _ _ (by
      intro c hc
      rcases List.mem_cons.mp hc with rfl | hc
      · decide
      · exact (hXfact c hc).1)
    have hltt : hasCh '<' ('<' :: d :: t) = true := hasCh_true _ _ (List.mem_cons_self _ _)
    have hc1 : prrCase1 ('<' :: d :: t) = none := by simp [prrCase1, hdashf]
    have hsr : srchIn ltRx ('<' :: d :: t)
        = some (0, ('<' :: d :: t).length - ([] : List Char).length, [(1, d :: t)]) :=
      srchIn_head ltRx ('<' :: d :: t) ([], [(1, d :: t)]) hang.1
    have hc2 : prrCase2 ('<' :: d :: t) = some (.ninf, fx) := by
      simp only [prrCase2, hltt, if_true]
      rw [hsr]
      simp [grpGet, hq]
    simp [parse_reference_range, hstrip, hc1, hc2]
  · have hstrip : pyStrip ('<' :: '=' :: d :: t) = '<' :: '=' :: d :: t := pyStrip_id _ (by
      intro c hc
      rcases List.mem_cons.mp hc with rfl | hc
      · decide
      · rcases List.mem_cons.mp hc with rfl | hc
        · decide
        · exact (hXfact c hc).2.2.2)
    have hdashf : hasCh '-' ('<' :: '=' :: d :: t) = false := hasCh_false _ _ (by
      intro c hc
      rcases List.mem_cons.mp hc with rfl | hc
      · decide
      · rcases List.mem_cons.mp hc with rfl | hc
        · decide
        · exact (hXfact c hc).1)
    have hltt : hasCh '<' ('<' :: '=' :: d :: t) = true :=
      hasCh_true _ _ (List.mem_cons_self _ _)
    have hc1 : prrCase1 ('<' :: '=' :: d :: t) = none := by simp [prrCase1, hdashf]
    have hsr : srchIn ltRx ('<' :: '=' :: d :: t)
        = some (0, ('<' :: '=' :: d :: t).length - ([] : List Char).length, [(1, d :: t)]) :=
      srchIn_head ltRx ('<' :: '=' :: d :: t) ([], [(1, d :: t)]) hang.2
    have hc2 : prrCase2 ('<' :: '=' :: d :: t) = some (.ninf, fx) := by
      simp only [prrCase2, hltt, if_true]
      rw [hsr]
      simp [grpGet, hq]
    simp [parse_reference_range, hstrip, hc1, hc2]
  · have hstrip : pyStrip ('>' :: d :: t) = '>' :: d :: t := pyStrip_id _ (by
      intro c hc
      rcases List.mem_cons.mp hc with rfl | hc
      · decide
      · exact (hXfact c hc).2.2.2)
    have hdashf : hasCh '-' ('>' :: d :: t) = false := hasCh_false _ _ (by
      intro c hc
      rcases List.mem_cons.mp hc with rfl | hc
      · decide
      · exact (hXfact c hc).1)
    have hltf : hasCh '<' ('>' :: d :: t) = false := hasCh_false _ _ (by
      intro c hc
      rcases List.mem_cons.mp hc with rfl | hc
      · decide
      · exact (hXfact c hc).2.1)
    have hgtt : hasCh '>' ('>' :: d :: t) = true := hasCh_true _ _ (List.mem_cons_self _ _)
    have hc1 : prrCase1 ('>' :: d :: t) = none := by simp [prrCase1, hdashf]
    have hc2 : prrCase2 ('>' :: d :: t) = none := by simp [prrCase2, hltf]
    have hsr : srchIn gtRx ('>' :: d :: t)
        = some (0, ('>' :: d :: t).length - ([] : List Char).length, [(1, d :: t)]) :=
      srchIn_head gtRx ('>' :: d :: t) ([], [(1, d :: t)]) hang2.1
    have hc3 : prrCase3 ('>' :: d :: t) = some (fx, .inf) := by
      simp only [prrCase3, hgtt, if_true]
      rw [hsr]
      simp [grpGet, hq]
    simp [parse_reference_range, hstrip, hc1, hc2, hc3]
  · have hstrip : pyStrip ('>' :: '=' :: d :: t) = '>' :: '=' :: d :: t := pyStrip_id _ (by
      intro c hc
      rcases List.mem_cons.mp hc with rfl | hc
      · decide
      · rcases List.mem_cons.mp hc with rfl | hc
        · decide
        · exact (hXfact c hc).2.2.2)
    have hdashf : hasCh '-' ('>' :: '=' :: d :: t) = false := hasCh_false _ _ (by
      intro c hc
      rcases List.mem_cons.mp hc with rfl | hc
      · decide
      · rcases List.mem_cons.mp hc with rfl | hc
        · decide
        · exact (hXfact c hc).1)
    have hltf : hasCh '<' ('>' :: '=' :: d :: t) = false := hasCh_false _ _ (by
      intro c hc
      rcases List.mem_cons.mp hc with rfl | hc
      · decide
      · rcases List.mem_cons.mp hc with rfl | hc
        · decide
        · exact (hXfact c hc).2.1)
    have hgtt : hasCh '>' ('>' :: '=' :: d :: t) = true :=
      hasCh_true _ _ (List.mem_cons_self _ _)
    have hc1 : prrCase1 ('>' :: '=' :: d :: t) = none := by simp [prrCase1, hdashf]
    have hc2 : prrCase2 ('>' :: '=' :: d :: t) = none := by simp [prrCase2, hltf]
    have hsr : srchIn gtRx ('>' :: '=' :: d :: t)
        = some (0, ('>' :: '=' :: d :: t).length - ([] : List Char).length, [(1, d :: t)]) :=
      srchIn_head gtRx ('>' :: '=' :: d :: t) ([], [(1, d :: t)]) hang2.2
    have hc3 : prrCase3 ('>' :: '=' :: d :: t) = some (fx, .inf) := by
      simp only [prrCase3, hgtt, if_true]
      rw [hsr]
      simp [grpGet, hq]
    simp [parse_reference_range, hstrip, hc1, hc2, hc3]

/-- The default case of the amended range claim. -/
theorem prr_default (l : List Char) (h : ∀ c ∈ l, c ≠ '-' ∧ c ≠ '<' ∧ c ≠ '>') :
    parse_reference_range l = (.fin 0, .fin 0) := by
  have h' : ∀ c ∈ pyStrip l, c ≠ '-' ∧ c ≠ '<' ∧ c ≠ '>' :=
    fun c hc => h c (mem_pyStrip hc)
  have h1 : hasCh '-' (pyStrip l) = false := hasCh_false _ _ (fun c hc => (h' c hc).1)
  have h2 : hasCh '<' (pyStrip l) = false := hasCh_false _ _ (fun c hc => (h' c hc).2.1)
  have h3 : hasCh '>' (pyStrip l) = false := hasCh_false _ _ (fun c hc => (h' c hc).2.2)
  simp [parse_reference_range, prrCase1, prrCase2, prrCase3, h1, h2, h3]

/-- C4, corrected claim: for whitespace-free float literals A and B
containing no `-`, `<`, `>`, parsing `"A-B"` yields the parsed float
values `(float(A), float(B))` — an `inf` or overflowing literal giving the
infinite float; for X an unsigned plain decimal numeral, `"<X"`/`"<=X"`
yields `(-inf, float(X))` and `">X"`/`">=X"` yields `(float(X), +inf)`;
and every string containing none of `-`, `<`, `>` parses to the
degenerate default `(0.0, 0.0)`. -/
theorem range_parse_amended :
    (∀ a b fa fb,
       (∀ c ∈ a, c ≠ '-' ∧ c ≠ '<' ∧ c ≠ '>' ∧ isPySpace c = false) →
       (∀ c ∈ b, c ≠ '-' ∧ c ≠ '<' ∧ c ≠ '>' ∧ isPySpace c = false) →
       pyParseFloat a = some fa → pyParseFloat b = some fb →
       parse_reference_range (a ++ '-' :: b) = (fa, fb)) ∧
    (∀ X fx, numShape X → pyParseFloat X = some fx →
       parse_reference_range ('<' :: X) = (.ninf, fx) ∧
       parse_reference_range ('<' :: '=' :: X) = (.ninf, fx) ∧
       parse_reference_range ('>' :: X) = (fx, .inf) ∧
       parse_reference_range ('>' :: '=' :: X) = (fx, .inf)) ∧
    (∀ l, (∀ c ∈ l, c ≠ '-' ∧ c ≠ '<' ∧ c ≠ '>') →
       parse_reference_range l = (.fin 0, .fin 0)) :=
  ⟨prr_dash, prr_angle, prr_default⟩

/-- C4, witness: representative instances of all three parts. -/
theorem range_parse_witness :
    parse_reference_range (chars ("12.0-16.0")) = (.fin (mkRat 12 1), .fin (mkRat 16 1)) ∧
    parse_reference_range (chars ("<12.5")) = (.ninf, .fin (mkRat 25 2)) ∧
    parse_reference_range (chars (">=3.5")) = (.fin (mkRat 7 2), .inf) ∧
    parse_reference_range (chars ("N/A")) = (.fin 0, .fin 0) := by
  refine ⟨?_, ?_, ?_, ?_⟩
  · rw [show chars ("12.0-16.0") = chars ("12.0") ++ '-' :: chars ("16.0") by decide]
    exact range_parse_amended.1 (chars ("12.0")) (chars ("16.0"))
      (.fin (mkRat 12 1)) (.fin (mkRat 16 1))
      (by decide) (by decide) (by decide) (by decide)
  · rw [show chars ("<12.5") = '<' :: chars ("12.5") by decide]
    exact (range_parse_amended.2.1 (chars ("12.5")) (.fin (mkRat 25 2))
      ⟨chars ("12"), chars ("5"), by decide, by decide, by decide, Or.inr (by decide)⟩
      (by decide)).1
  · rw [show chars (">=3.5") = '>' :: '=' :: chars ("3.5") by decide]
    exact (range_parse_amended.2.1 (chars ("3.5")) (.fin (mkRat 7 2))
      ⟨chars ("3"), chars ("5"), by decide, by decide, by decide, Or.inr (by decide)⟩
      (by decide)).2.2.2
  · exact range_parse_amended.2.2 (chars ("N/A")) (by decide)

/-- C4, counterexample: with A = -1.5 and B = 3.0 (floats with A <= B and
a string containing no `<` or `>`), `"A-B"` splits into three pieces and
parses to the default, not to (A, B); and `"<1e3"` parses to bound 1, not
to the float value 1000 of `"1e3"`. -/
theorem range_parse_cx :
    chars ("-1.5-3.0") = chars ("-1.5") ++ '-' :: chars ("3.0") ∧
    pyParseFloat (chars ("-1.5")) = some (.fin (mkRat (-3) 2)) ∧
    pyParseFloat (chars ("3.0")) = some (.fin (mkRat 3 1)) ∧
    mkRat (-3) 2 ≤ mkRat 3 1 ∧
    parse_reference_range (chars ("-1.5-3.0")) = (.fin 0, .fin 0) ∧
    parse_reference_range (chars ("-1.5-3.0")) ≠ (.fin (mkRat (-3) 2), .fin (mkRat 3 1)) ∧
    pyParseFloat (chars ("1e3")) = some (.fin (mkRat 1000 1)) ∧
    parse_reference_range (chars ("<1e3")) = (.ninf, .fin (mkRat 1 1)) ∧
    parse_reference_range (chars ("<1e3")) ≠ (.ninf, .fin (mkRat 1000 1)) := by decide
